import Mathlib

/-!
Shallow embedding of the DLO-HiC-Tools repository (Python) in Lean 4, together
with theorems settling the frozen claims about its specification.

Sources embedded:
  - src/dlo_hic/hicmatrix.py            (HicMatrix / HicChrMatrix data model)
  - src/dlo_hic/tools/helper/extract_rest_sites.py   (restriction-site worker)
  - src/dlo_hic/tools/main_process/bedpe2pairs.py    (pairs file assembly)
  - src/dlo_hic/utils/wrap/tabix.py     (external sort key orders)

Python exceptions are modelled by an explicit error type; stateful methods are
modelled by explicit state passing returning `Except`.  Machine integers of the
source are nonnegative genomic quantities, modelled as `Nat`; matrix cells are
`numpy.float` values, modelled as `Rat` (the claims never exercise the
infinity/NaN behaviour of float division by zero, which has no `Rat`
counterpart and is noted where relevant).
-/

/-- Python runtime errors raised by the embedded code.  `nameError s` models
`NameError: name s is not defined` (an unbound variable). -/
inductive PyError where
  | nameError (name : String)
  | valueError (msg : String)
  | keyError (key : String)
  | indexError
  | zeroDivisionError
deriving DecidableEq, Repr

/-- Equality of embedded outcomes (success value or raised error) is
decidable, so concrete runs can be checked by evaluation. -/
def exceptDecEq {ε α : Type*} [DecidableEq ε] [DecidableEq α] :
    (a b : Except ε α) → Decidable (a = b)
  | .error e1, .error e2 =>
    match decEq e1 e2 with
    | isTrue h => isTrue (h ▸ rfl)
    | isFalse h => isFalse fun hh => h (Except.error.inj hh)
  | .error _, .ok _ => isFalse fun hh => Except.noConfusion hh
  | .ok _, .error _ => isFalse fun hh => Except.noConfusion hh
  | .ok a1, .ok a2 =>
    match decEq a1 a2 with
    | isTrue h => isTrue (h ▸ rfl)
    | isFalse h => isFalse fun hh => h (Except.ok.inj hh)

instance {ε α : Type*} [DecidableEq ε] [DecidableEq α] :
    DecidableEq (Except ε α) :=
  exceptDecEq

/-- A 2-D `numpy` array of floats, embedded as a list of rows of rationals. -/
abbrev NDArray := List (List ℚ)

namespace NDArray

/-- `numpy` array shape `(rows, cols)`.  Real `numpy` 2-D arrays are always
rectangular, so taking the first row length for `cols` is faithful. -/
def shape (m : NDArray) : Nat × Nat := (m.length, (m.headD []).length)

/-- Rectangularity: every row has the length recorded in `shape` (always true
of a real `numpy` 2-D array). -/
def IsRect (m : NDArray) : Prop := ∀ row ∈ m, row.length = (m.headD []).length

instance (m : NDArray) : Decidable (IsRect m) := by
  unfold IsRect; infer_instance

/-- Read cell `[i, j]` (with default 0 out of range; callers guard bounds). -/
def get2 (m : NDArray) (i j : Nat) : ℚ := (m.getD i []).getD j 0

/-- `m[i, j] += v` of `numpy`: out-of-range indices raise `IndexError`. -/
def add2 (m : NDArray) (i j : Nat) (v : ℚ) : Except PyError NDArray :=
  if i < m.length then
    let row := m.getD i []
    if j < row.length then
      .ok (m.set i (row.set j (row.getD j 0 + v)))
    else .error .indexError
  else .error .indexError

/-- `numpy.zeros([n, n])`. -/
def zeros (n : Nat) : NDArray := List.replicate n (List.replicate n 0)

/-- The array produced by an in-bounds `m[i, j] += v` (the `.ok` payload of
`add2`). -/
def upd2 (m : NDArray) (i j : Nat) (v : ℚ) : NDArray :=
  m.set i ((m.getD i []).set j ((m.getD i []).getD j 0 + v))

/-- Element-wise combination of two same-shape arrays (`numpy` broadcasting is
never exercised by the embedded call sites: shapes are checked equal first). -/
def elementwise (f : ℚ → ℚ → ℚ) (a b : NDArray) : NDArray :=
  List.zipWith (List.zipWith f) a b

end NDArray

/-!
## hicmatrix.py : HicChrMatrix

The source class hierarchy is `HicMatrix` (plain wrapper) extended by
`HicChrMatrix` (chromosome metadata).  The claims are about the
chromosome-aware wrapper, so the embedding carries all its attributes in one
structure; the inherited arithmetic methods act on it exactly as the Python
`copy.copy(self)`-then-replace-matrix decorator does (all non-matrix
attributes of the result are those of the left operand).
-/

/-- Attributes of a `HicChrMatrix` instance, in source order.  The Python
`dict` attribute `axis` is embedded as an association list in insertion order
(chromosome names are unique in every embedded call site, so first-match
lookup agrees with `dict` lookup). -/
structure HicChrMatrix where
  bin_size : Nat
  chr_len : List (String × Nat)
  iced : Bool
  axis : List (String × (Nat × Nat))
  chromosomes : List String
  lengths : List Nat
  num_bins : Nat
  matrix : NDArray
deriving DecidableEq, Repr

namespace HicChrMatrix

/-- Bin count of one chromosome: `len_ // bin_size` when the remainder is
zero, else `len_ // bin_size + 1` (hicmatrix.py lines 124-127). -/
def numBinsOf (len_ bin_size : Nat) : Nat :=
  if len_ % bin_size = 0 then len_ / bin_size else len_ / bin_size + 1

/-- State carried by the construction loop of `HicChrMatrix.__init__`:
`(axis, pos, chromosomes, lengths, last value bound to the loop variable
num_bins — none while the loop body has not yet run)`. -/
abbrev InitState :=
  List (String × (Nat × Nat)) × Nat × List String × List Nat × Option Nat

/-- The `for chr_, len_ in chr_len` loop of `HicChrMatrix.__init__`
(hicmatrix.py lines 123-136).  A zero `bin_size` raises `ZeroDivisionError`
at the `len_ % bin_size` computation.  When `num_bins` is zero the source
executes `print(..., file=sys.stderr)`, but `sys` is never imported in
hicmatrix.py, so that branch raises `NameError` on the unbound name `sys`. -/
def initLoop (bin_size : Nat) :
    List (String × Nat) → InitState → Except PyError InitState
  | [], st => .ok st
  | (chr_, len_) :: rest, (axis, pos, chromosomes, lengths, _) =>
    if bin_size = 0 then .error .zeroDivisionError
    else
      let nb := numBinsOf len_ bin_size
      if nb = 0 then .error (.nameError "sys")
      else
        initLoop bin_size rest
          (axis ++ [(chr_, (pos, pos + nb - 1))], pos + nb,
           chromosomes ++ [chr_], lengths ++ [nb], some nb)

/-- `HicChrMatrix.__init__(chr_len, bin_size)` (hicmatrix.py lines 107-145).
After the loop, `self.num_bins` is the sum of the per-chromosome bin counts,
but the allocation `np.zeros([num_bins, num_bins])` on line 144 reads the
LOOP VARIABLE `num_bins` — the bin count of the last processed chromosome —
not `self.num_bins`.  When the loop body never ran (empty table) that name is
unbound and the allocation raises `NameError`. -/
def init (chr_len : List (String × Nat)) (bin_size : Nat) :
    Except PyError HicChrMatrix :=
  match initLoop bin_size chr_len ([], 0, [], [], none) with
  | .error e => .error e
  | .ok (axis, _, chromosomes, lengths, lastNumBins) =>
    match lastNumBins with
    | none => .error (.nameError "num_bins")
    | some nb =>
      .ok { bin_size, chr_len, iced := false, axis, chromosomes, lengths,
            num_bins := lengths.sum, matrix := NDArray.zeros nb }

/-- `HicChrMatrix.locate(chr_x, x, chr_y, y, val)` (hicmatrix.py lines
175-204): axis lookups (raising `KeyError` on an unknown chromosome), floor
division of each position by the bin size, absolute index = offset plus the
chromosome axis start, then two symmetric `+= val` cell updates.  The source
names the intermediates `offset_x = x // bin_size` and
`abs_x = offset_x + chr_span_x[0]`; they are inlined here. -/
def locate (self : HicChrMatrix) (chr_x : String) (x : Nat) (chr_y : String)
    (y : Nat) (val : ℚ) : Except PyError HicChrMatrix :=
  match self.axis.lookup chr_x with
  | none => .error (.keyError chr_x)
  | some chr_span_x =>
    match self.axis.lookup chr_y with
    | none => .error (.keyError chr_y)
    | some chr_span_y =>
      if self.bin_size = 0 then .error .zeroDivisionError
      else
        match self.matrix.add2 (x / self.bin_size + chr_span_x.1)
            (y / self.bin_size + chr_span_y.1) val with
        | .error e => .error e
        | .ok m1 =>
          match m1.add2 (y / self.bin_size + chr_span_y.1)
              (x / self.bin_size + chr_span_x.1) val with
          | .error e => .error e
          | .ok m2 => .ok { self with matrix := m2 }

/-- The `mat_operation` decorator (hicmatrix.py lines 14-23): check the two
matrices have identical shape (raising `ValueError` otherwise), shallow-copy
the left operand and replace its matrix by the element-wise combination.  The
embedding passes state explicitly, so neither operand is ever mutated by
construction. -/
def mat_operation (f : ℚ → ℚ → ℚ) (self other : HicChrMatrix) :
    Except PyError HicChrMatrix :=
  if self.matrix.shape ≠ other.matrix.shape then
    .error (.valueError "Two matrix must in same shape.")
  else
    .ok { self with matrix := NDArray.elementwise f self.matrix other.matrix }

/-- `__add__` (hicmatrix.py lines 60-62), inherited by `HicChrMatrix`. -/
def add (self other : HicChrMatrix) : Except PyError HicChrMatrix :=
  mat_operation (fun a b => a + b) self other

/-- `__sub__` (hicmatrix.py lines 64-66). -/
def sub (self other : HicChrMatrix) : Except PyError HicChrMatrix :=
  mat_operation (fun a b => a - b) self other

/-- `__div__` (hicmatrix.py lines 68-70).  `numpy` float division by a zero
cell yields an infinity or NaN sentinel without raising; `Rat` division by
zero yields 0.  No claim exercises a zero divisor. -/
def div (self other : HicChrMatrix) : Except PyError HicChrMatrix :=
  mat_operation (fun a b => a / b) self other

/-- `__mul__` (hicmatrix.py lines 72-74). -/
def mul (self other : HicChrMatrix) : Except PyError HicChrMatrix :=
  mat_operation (fun a b => a * b) self other

end HicChrMatrix

/-!
## extract_rest_sites.py : restriction-site worker

The worker (lines 21-43) scans one chromosome sequence with
`re.finditer(rest, seq, re.IGNORECASE)` and, when the reverse complement of
the motif differs from the motif, also with the reverse complement.
Restriction motifs are literal DNA strings without regular-expression
metacharacters, so `re.finditer` is embedded as the scan for leftmost
non-overlapping case-insensitive literal occurrences.
-/

/-- Modelled from the spec: `dlo_hic.utils.reverse_complement` is imported by
extract_rest_sites.py but its module is not among the provided sources.  The
spec says it computes the reverse complement using the standard base-pairing
rule (A-T, C-G), case-insensitively, preserving input case.  Complement of a
single base. -/
def complementBase (c : Char) : Char :=
  match c with
  | 'A' => 'T' | 'T' => 'A' | 'C' => 'G' | 'G' => 'C'
  | 'a' => 't' | 't' => 'a' | 'c' => 'g' | 'g' => 'c'
  | other => other

/-- Modelled from the spec: the reverse complement of a motif — reverse the
string and complement each base. -/
def reverse_complement (s : String) : String :=
  String.mk (s.data.reverse.map complementBase)

/-- Case-insensitive literal match of `pat` at offset `i` of `s`
(the `re.IGNORECASE` flag of the source search). -/
def matchesAt (pat s : List Char) (i : Nat) : Bool :=
  decide (i + pat.length ≤ s.length) &&
    decide (((s.drop i).take pat.length).map Char.toLower =
              pat.map Char.toLower)

/-- Scanner behind {finditer}: from offset `i`, emit each leftmost
non-overlapping match as a `(start, end)` span and resume right after it, the
way `re.finditer` does.  `fuel` bounds the recursion; the offset grows by at
least one per step, so `s.length + 2` fuel always suffices. -/
def finditerAux (pat s : List Char) : Nat → Nat → List (Nat × Nat)
  | _, 0 => []
  | i, fuel + 1 =>
    if i > s.length then []
    else if matchesAt pat s i then
      (i, i + pat.length) :: finditerAux pat s (i + max 1 pat.length) fuel
    else
      finditerAux pat s (i + 1) fuel

/-- `re.finditer(pat, s, re.IGNORECASE)` for a literal pattern: the list of
`(match.start(), match.end())` spans in order. -/
def finditer (pat s : List Char) : List (Nat × Nat) :=
  finditerAux pat s 0 (s.length + 2)

/-- One BED6 record as emitted by the worker:
`(chromosome, start, end, name, score, strand)`. -/
structure Bed6 where
  chrom : String
  start : Nat
  stop : Nat
  name : String
  score : String
  strand : String
deriving DecidableEq, Repr

/-- Records the worker (extract_rest_sites.py lines 21-43) puts on the output
queue for one chromosome: one `(chr, start, end, ".", "0", "+")` record per
case-insensitive match of the motif, and — only when the reverse complement
of the motif differs from the motif itself — one
`(chr, start, end, ".", "0", "-")` record per match of the reverse
complement. -/
def worker_records (rest chr_ seq : String) : List Bed6 :=
  let fwd := (finditer rest.data seq.data).map
    (fun p => ⟨chr_, p.1, p.2, ".", "0", "+"⟩)
  let rest_rc := reverse_complement rest
  if rest_rc ≠ rest then
    fwd ++ (finditer rest_rc.data seq.data).map
      (fun p => ⟨chr_, p.1, p.2, ".", "0", "-"⟩)
  else fwd

/-!
## bedpe2pairs.py : pairs file assembly

The tail of `_main` (bedpe2pairs.py lines 46-61): converted pairs records are
written to a temporary file, sorted, and appended after a fixed two-line
header.  The streaming helpers (`dlo_hic.utils.stream`) are not among the
provided sources; the sort key order is taken from `sort_pairs` in
src/dlo_hic/utils/wrap/tabix.py (line 34):
`sort -k2,2 -k4,4 -k3,3n -k5,5n`, i.e. primary key chromosome1, secondary
key chromosome2, tertiary key position1 numeric, quaternary key position2
numeric on the seven-column pairs layout
`readID chr1 position1 chr2 position2 strand1 strand2`.
-/

/-- One pairs record: `readID chr1 position1 chr2 position2 strand1
strand2`. -/
structure PairsRecord where
  readID : String
  chr1 : String
  pos1 : Nat
  chr2 : String
  pos2 : Nat
  strand1 : String
  strand2 : String
deriving DecidableEq, Repr

/-- Serialization of one pairs record as a tab-joined line (the spec form of
the streaming write helper). -/
def pairsLine (r : PairsRecord) : String :=
  r.readID ++ "\t" ++ r.chr1 ++ "\t" ++ toString r.pos1 ++ "\t" ++
    r.chr2 ++ "\t" ++ toString r.pos2 ++ "\t" ++ r.strand1 ++ "\t" ++ r.strand2

/-- The ordering realized by `sort -k2,2 -k4,4 -k3,3n -k5,5n` on pairs lines
(tabix.py line 34): lexicographic priority chromosome1, chromosome2,
position1 (numeric), position2 (numeric). -/
def PairsLE (a b : PairsRecord) : Prop :=
  a.chr1 < b.chr1 ∨ (a.chr1 = b.chr1 ∧
    (a.chr2 < b.chr2 ∨ (a.chr2 = b.chr2 ∧
      (a.pos1 < b.pos1 ∨ (a.pos1 = b.pos1 ∧ a.pos2 ≤ b.pos2)))))

instance : DecidableRel PairsLE := by
  unfold PairsLE; infer_instance

instance : IsTotal PairsRecord PairsLE := by
  constructor
  intro a b
  rcases lt_trichotomy a.chr1 b.chr1 with h1 | h1 | h1
  · exact Or.inl (Or.inl h1)
  · rcases lt_trichotomy a.chr2 b.chr2 with h2 | h2 | h2
    · exact Or.inl (Or.inr ⟨h1, Or.inl h2⟩)
    · rcases lt_trichotomy a.pos1 b.pos1 with h3 | h3 | h3
      · exact Or.inl (Or.inr ⟨h1, Or.inr ⟨h2, Or.inl h3⟩⟩)
      · rcases Nat.le_total a.pos2 b.pos2 with h4 | h4
        · exact Or.inl (Or.inr ⟨h1, Or.inr ⟨h2, Or.inr ⟨h3, h4⟩⟩⟩)
        · exact Or.inr (Or.inr ⟨h1.symm, Or.inr ⟨h2.symm, Or.inr ⟨h3.symm, h4⟩⟩⟩)
      · exact Or.inr (Or.inr ⟨h1.symm, Or.inr ⟨h2.symm, Or.inl h3⟩⟩)
    · exact Or.inr (Or.inr ⟨h1.symm, Or.inl h2⟩)
  · exact Or.inr (Or.inl h1)

instance : IsTrans PairsRecord PairsLE := by
  constructor
  intro a b c hab hbc
  rcases hab with h1 | ⟨e1, h1⟩
  · rcases hbc with h2 | ⟨e2, _⟩
    · exact Or.inl (h1.trans h2)
    · exact Or.inl (e2 ▸ h1)
  · rcases hbc with h2 | ⟨e2, h2⟩
    · exact Or.inl (e1 ▸ h2)
    · refine Or.inr ⟨e1.trans e2, ?_⟩
      rcases h1 with h1 | ⟨f1, h1⟩
      · rcases h2 with h2 | ⟨f2, _⟩
        · exact Or.inl (h1.trans h2)
        · exact Or.inl (f2 ▸ h1)
      · rcases h2 with h2 | ⟨f2, h2⟩
        · exact Or.inl (f1 ▸ h2)
        · refine Or.inr ⟨f1.trans f2, ?_⟩
          rcases h1 with h1 | ⟨g1, h1⟩
          · rcases h2 with h2 | ⟨g2, _⟩
            · exact Or.inl (h1.trans h2)
            · exact Or.inl (g2 ▸ h1)
          · rcases h2 with h2 | ⟨g2, h2⟩
            · exact Or.inl (g1 ▸ h2)
            · exact Or.inr ⟨g1.trans g2, h1.trans h2⟩

/-- Modelled from the spec: the streaming `sort_pairs` stage of
`dlo_hic.utils.stream` (not among the provided sources) sorts the temporary
pairs file through the external `sort -k2,2 -k4,4 -k3,3n -k5,5n` invocation
whose key order `PairsLE` is taken from src/dlo_hic/utils/wrap/tabix.py. -/
def sortPairsRecords (l : List PairsRecord) : List PairsRecord :=
  List.insertionSort PairsLE l

/-- The two header lines written by `_main` (bedpe2pairs.py lines 56-59). -/
def pairsHeaderLines : List String :=
  ["## pairs format v1.0",
   "#columns: readID chr1 position1 chr2 position2 strand1 strand2"]

/-- Lines of the final pairs file assembled by `_main` (bedpe2pairs.py lines
49-61): the header written first, then the sorted converted records appended
(the streaming write helper, modelled from the spec, emits one tab-joined
line per record). -/
def bedpe2pairsOutput (records : List PairsRecord) : List String :=
  pairsHeaderLines ++ (sortPairsRecords records).map pairsLine

/-- The wrapper `HicChrMatrix.init` actually builds for the spec example
table `[("chr1", 25), ("chr2", 15)]` with bin size 10 (see `claim_C1` and
`claim_C6`): axis and totals cover five bins, but the allocated matrix is
2 by 2 — the bin count of the LAST chromosome — because the allocation on
hicmatrix.py line 144 reads the loop variable `num_bins` instead of
`self.num_bins`. -/
def exampleMat : HicChrMatrix :=
  { bin_size := 10, chr_len := [("chr1", 25), ("chr2", 15)], iced := false,
    axis := [("chr1", (0, 2)), ("chr2", (3, 4))],
    chromosomes := ["chr1", "chr2"], lengths := [3, 2], num_bins := 5,
    matrix := [[0, 0], [0, 0]] }

/-- A second wrapper with the same 2 by 2 matrix shape and distinct cell
values, used to exercise the arithmetic operators. -/
def exampleMatB : HicChrMatrix :=
  { exampleMat with matrix := [[1, 2], [4, 8]] }

/-- A wrapper whose matrix has a different shape (1 by 1), used to exercise
the shape-mismatch error path. -/
def exampleMatSmall : HicChrMatrix :=
  { exampleMat with matrix := [[7]] }

/-- What one arithmetic operator produces on same-shape wrappers according
to the claim: success, every metadata attribute of the left operand carried
over unchanged (the `copy.copy(self)` shallow copy), the left operand's
matrix shape, and each in-range cell equal to the element-wise combination
of the operand cells.  Neither operand is mutated: the embedding passes both
operands by value and returns only the fresh result. -/
def ElemwiseResult (f : ℚ → ℚ → ℚ) (a b : HicChrMatrix)
    (res : Except PyError HicChrMatrix) : Prop :=
  ∃ r, res = .ok r ∧
    r.bin_size = a.bin_size ∧ r.chr_len = a.chr_len ∧ r.iced = a.iced ∧
    r.axis = a.axis ∧ r.chromosomes = a.chromosomes ∧
    r.lengths = a.lengths ∧ r.num_bins = a.num_bins ∧
    r.matrix.shape = a.matrix.shape ∧
    ∀ i j, i < a.matrix.shape.1 → j < a.matrix.shape.2 →
      r.matrix.get2 i j = f (a.matrix.get2 i j) (b.matrix.get2 i j)

/-!
## Helper lemmas on lists and on the embedded operations
-/

theorem getD_set_self {α : Type*} (l : List α) (i : Nat) (a d : α)
    (h : i < l.length) : (l.set i a).getD i d = a := by
  induction l generalizing i with
  | nil => simp at h
  | cons x xs ih =>
    cases i with
    | zero => rfl
    | succ n => simpa using ih n (by simpa using h)

theorem getD_set_ne {α : Type*} (l : List α) (i j : Nat) (a d : α)
    (h : i ≠ j) : (l.set i a).getD j d = l.getD j d := by
  induction l generalizing i j with
  | nil => simp
  | cons x xs ih =>
    cases i with
    | zero =>
      cases j with
      | zero => exact absurd rfl h
      | succ mj => rfl
    | succ n =>
      cases j with
      | zero => rfl
      | succ mj => simpa using ih n mj (fun hh => h (by rw [hh]))

theorem getD_zipWith {α β γ : Type*} (f : α → β → γ) (l1 : List α)
    (l2 : List β) (i : Nat) (d1 : α) (d2 : β) (d : γ)
    (h1 : i < l1.length) (h2 : i < l2.length) :
    (List.zipWith f l1 l2).getD i d = f (l1.getD i d1) (l2.getD i d2) := by
  induction l1 generalizing l2 i with
  | nil => simp at h1
  | cons x xs ih =>
    cases l2 with
    | nil => simp at h2
    | cons y ys =>
      cases i with
      | zero => rfl
      | succ n => simpa using ih ys n (by simpa using h1) (by simpa using h2)

theorem getD_mem_of_lt {α : Type*} (l : List α) (i : Nat) (d : α)
    (h : i < l.length) : l.getD i d ∈ l := by
  rw [List.getD_eq_getElem l d h]
  exact List.getElem_mem h

namespace NDArray

theorem shape_elementwise (f : ℚ → ℚ → ℚ) (a b : NDArray)
    (h : a.shape = b.shape) : (elementwise f a b).shape = a.shape := by
  cases a with
  | nil =>
    cases b with
    | nil => rfl
    | cons y ys =>
      have h1 : ([] : NDArray).length = (y :: ys).length := congrArg Prod.fst h
      simp at h1
  | cons x xs =>
    cases b with
    | nil =>
      have h1 : (x :: xs : NDArray).length = ([] : NDArray).length :=
        congrArg Prod.fst h
      simp at h1
    | cons y ys =>
      have h1 : (x :: xs : NDArray).length = (y :: ys).length :=
        congrArg Prod.fst h
      have h2 : x.length = y.length := congrArg Prod.snd h
      simp only [shape, elementwise, List.zipWith_cons_cons, List.length_cons,
        List.headD_cons, Prod.mk.injEq]
      rw [List.length_zipWith, List.length_zipWith]
      simp at h1
      rw [h1, h2]
      exact ⟨by omega, Nat.min_self _⟩

theorem get2_elementwise (f : ℚ → ℚ → ℚ) (a b : NDArray)
    (ha : a.IsRect) (hb : b.IsRect) (h : a.shape = b.shape)
    (i j : Nat) (hi : i < a.shape.1) (hj : j < a.shape.2) :
    (elementwise f a b).get2 i j = f (a.get2 i j) (b.get2 i j) := by
  have hfst : a.length = b.length := congrArg Prod.fst h
  have hsnd : (a.headD []).length = (b.headD []).length := congrArg Prod.snd h
  have hi1 : i < a.length := hi
  have hi2 : i < b.length := by omega
  have hja : j < (a.getD i []).length := by
    rw [ha _ (getD_mem_of_lt a i [] hi1)]; exact hj
  have hjb : j < (b.getD i []).length := by
    rw [hb _ (getD_mem_of_lt b i [] hi2)]
    have hj2 : j < (a.headD []).length := hj
    omega
  unfold elementwise get2
  rw [getD_zipWith (List.zipWith f) a b i [] [] [] hi1 hi2,
    getD_zipWith f _ _ j 0 0 0 hja hjb]

/-- Row lengths of a rectangular square array. -/
theorem row_length_of_square (m : NDArray) (hrect : m.IsRect)
    (hsq : (m.headD []).length = m.length) (i : Nat) (hi : i < m.length) :
    (m.getD i []).length = m.length := by
  rw [hrect _ (getD_mem_of_lt m i [] hi)]; exact hsq

theorem add2_eq_ok (m : NDArray) (i j : Nat) (v : ℚ)
    (hi : i < m.length) (hj : j < (m.getD i []).length) :
    m.add2 i j v = .ok (upd2 m i j v) := by
  unfold add2 upd2
  rw [if_pos hi, if_pos hj]

theorem length_upd2 (m : NDArray) (i j : Nat) (v : ℚ) :
    (upd2 m i j v).length = m.length := by
  unfold upd2
  exact List.length_set m i _

theorem getD_upd2_ne (m : NDArray) (i j : Nat) (v : ℚ) (k : Nat)
    (h : i ≠ k) : (upd2 m i j v).getD k [] = m.getD k [] := by
  unfold upd2
  exact getD_set_ne m i k _ _ h

theorem rowlen_upd2_self (m : NDArray) (i j : Nat) (v : ℚ)
    (h : i < m.length) :
    ((upd2 m i j v).getD i []).length = (m.getD i []).length := by
  unfold upd2
  rw [getD_set_self _ i _ _ h, List.length_set]

theorem get2_upd2_self (m : NDArray) (i j : Nat) (v : ℚ)
    (hi : i < m.length) (hj : j < (m.getD i []).length) :
    (upd2 m i j v).get2 i j = m.get2 i j + v := by
  unfold upd2 get2
  rw [getD_set_self _ i _ _ hi, getD_set_self _ j _ _ hj]

theorem get2_upd2_other (m : NDArray) (i j : Nat) (v : ℚ) (k l : Nat)
    (hi : i < m.length) (h : k ≠ i ∨ l ≠ j) :
    (upd2 m i j v).get2 k l = m.get2 k l := by
  rcases eq_or_ne k i with hk | hk
  · subst hk
    have hl : l ≠ j := by
      rcases h with h | h
      · exact absurd rfl h
      · exact h
    unfold upd2 get2
    rw [getD_set_self _ k _ _ hi, getD_set_ne _ j l _ _ (fun hh => hl hh.symm)]
  · unfold upd2 get2
    rw [getD_set_ne _ i k _ _ (fun hh => hk hh.symm)]

end NDArray

namespace HicChrMatrix

theorem numBinsOf_pos (len_ b : Nat) (hb : 0 < b) (hl : 0 < len_) :
    0 < numBinsOf len_ b := by
  unfold numBinsOf
  split
  · next h =>
    exact Nat.div_pos (Nat.le_of_dvd hl (Nat.dvd_of_mod_eq_zero h)) hb
  · exact Nat.succ_pos _

theorem numBinsOf_zero (b : Nat) : numBinsOf 0 b = 0 := by
  simp [numBinsOf]

/-- A nonzero length shorter than one bin rounds up to exactly one bin. -/
theorem numBinsOf_short (len_ b : Nat) (h0 : 0 < len_) (hlt : len_ < b) :
    numBinsOf len_ b = 1 := by
  unfold numBinsOf
  rw [Nat.mod_eq_of_lt hlt, Nat.div_eq_of_lt hlt, if_neg (by omega)]

/-- The construction loop succeeds on a table of positive lengths, appending
every chromosome name in order; the loop variable ends bound whenever the
table is nonempty. -/
theorem initLoop_ok_of_pos (b : Nat) (hb : 0 < b) :
    ∀ (l : List (String × Nat)), (∀ p ∈ l, 0 < p.2) →
    ∀ axis pos chroms lens o,
    ∃ axis2 pos2 lens2 o2,
      initLoop b l (axis, pos, chroms, lens, o) =
        .ok (axis2, pos2, chroms ++ l.map Prod.fst, lens2, o2) ∧
      ((l = [] ∧ o2 = o) ∨ ∃ k, o2 = some k) := by
  intro l
  induction l with
  | nil =>
    intro _ axis pos chroms lens o
    exact ⟨axis, pos, lens, o, by simp [initLoop], Or.inl ⟨rfl, rfl⟩⟩
  | cons p rest ih =>
    intro hpos axis pos chroms lens o
    obtain ⟨c, len_⟩ := p
    have hlen : 0 < len_ := hpos (c, len_) (List.mem_cons_self _ _)
    have hnb : ¬ numBinsOf len_ b = 0 := by
      have := numBinsOf_pos len_ b hb hlen; omega
    have hrest : ∀ p ∈ rest, 0 < p.2 :=
      fun q hq => hpos q (List.mem_cons_of_mem _ hq)
    obtain ⟨axis2, pos2, lens2, o2, heq, ho⟩ :=
      ih hrest (axis ++ [(c, (pos, pos + numBinsOf len_ b - 1))])
        (pos + numBinsOf len_ b) (chroms ++ [c]) (lens ++ [numBinsOf len_ b])
        (some (numBinsOf len_ b))
    refine ⟨axis2, pos2, lens2, o2, ?_, ?_⟩
    · rw [initLoop, if_neg (by omega : ¬ b = 0), if_neg hnb, heq]
      simp
    · rcases ho with ⟨-, ho2⟩ | hk
      · exact Or.inr ⟨numBinsOf len_ b, ho2⟩
      · exact Or.inr hk

/-- The construction loop hits the skip branch at the first zero-bin-count
chromosome and raises the unbound-name error of the warning print. -/
theorem initLoop_err_of_zero (b : Nat) (hb : 0 < b) :
    ∀ (pre : List (String × Nat)) (c : String) (post : List (String × Nat)),
    (∀ p ∈ pre, 0 < p.2) →
    ∀ axis pos chroms lens o,
      initLoop b (pre ++ (c, 0) :: post) (axis, pos, chroms, lens, o) =
        .error (.nameError "sys") := by
  intro pre
  induction pre with
  | nil =>
    intro c post _ axis pos chroms lens o
    rw [List.nil_append, initLoop, if_neg (by omega : ¬ b = 0)]
    simp [numBinsOf_zero]
  | cons p rest ih =>
    intro c post hpos axis pos chroms lens o
    obtain ⟨d, len_⟩ := p
    have hlen : 0 < len_ := hpos (d, len_) (List.mem_cons_self _ _)
    have hnb : ¬ numBinsOf len_ b = 0 := by
      have := numBinsOf_pos len_ b hb hlen; omega
    rw [List.cons_append, initLoop, if_neg (by omega : ¬ b = 0), if_neg hnb]
    exact ih c post (fun q hq => hpos q (List.mem_cons_of_mem _ hq)) _ _ _ _ _

/-- Successful construction on a nonempty table of positive lengths: the
chromosome list is the whole table in order. -/
theorem init_ok_of_pos (chr_len : List (String × Nat)) (b : Nat)
    (hb : 0 < b) (hl : ∀ p ∈ chr_len, 0 < p.2) (hne : chr_len ≠ []) :
    ∃ m, init chr_len b = .ok m ∧ m.chromosomes = chr_len.map Prod.fst := by
  obtain ⟨axis2, pos2, lens2, o2, heq, ho⟩ :=
    initLoop_ok_of_pos b hb chr_len hl [] 0 [] [] none
  rcases ho with ⟨hnil, -⟩ | ⟨k, hk⟩
  · exact absurd hnil hne
  · subst hk
    refine ⟨{ bin_size := b, chr_len := chr_len, iced := false, axis := axis2,
              chromosomes := [] ++ chr_len.map Prod.fst, lengths := lens2,
              num_bins := lens2.sum, matrix := NDArray.zeros k }, ?_, by simp⟩
    unfold init
    rw [heq]

/-- Evaluation of a `locate` call whose two absolute bin indices fall inside
the allocated square matrix: the result replaces the matrix by the two
symmetric in-place increments. -/
theorem locate_eq (m : HicChrMatrix) (chr_x chr_y : String) (x y : Nat)
    (v : ℚ) (sx sy : Nat × Nat)
    (hx : m.axis.lookup chr_x = some sx)
    (hy : m.axis.lookup chr_y = some sy)
    (hb : ¬ m.bin_size = 0)
    (hrect : m.matrix.IsRect)
    (hsq : (m.matrix.headD []).length = m.matrix.length)
    (hax : x / m.bin_size + sx.1 < m.matrix.length)
    (hay : y / m.bin_size + sy.1 < m.matrix.length) :
    m.locate chr_x x chr_y y v =
      .ok { m with
            matrix := NDArray.upd2
              (NDArray.upd2 m.matrix (x / m.bin_size + sx.1)
                (y / m.bin_size + sy.1) v)
              (y / m.bin_size + sy.1) (x / m.bin_size + sx.1) v } := by
  have hrlx : (m.matrix.getD (x / m.bin_size + sx.1) []).length =
      m.matrix.length :=
    NDArray.row_length_of_square _ hrect hsq _ hax
  have hrly : (m.matrix.getD (y / m.bin_size + sy.1) []).length =
      m.matrix.length :=
    NDArray.row_length_of_square _ hrect hsq _ hay
  have h1 := NDArray.add2_eq_ok m.matrix (x / m.bin_size + sx.1)
    (y / m.bin_size + sy.1) v hax (by rw [hrlx]; exact hay)
  have hlen1 : (NDArray.upd2 m.matrix (x / m.bin_size + sx.1)
      (y / m.bin_size + sy.1) v).length = m.matrix.length :=
    NDArray.length_upd2 _ _ _ _
  have hb3 : x / m.bin_size + sx.1 <
      ((NDArray.upd2 m.matrix (x / m.bin_size + sx.1)
        (y / m.bin_size + sy.1) v).getD (y / m.bin_size + sy.1) []).length := by
    rcases eq_or_ne (x / m.bin_size + sx.1) (y / m.bin_size + sy.1) with
      hd | hd
    · rw [← hd, NDArray.rowlen_upd2_self _ _ _ _ hax, hrlx]; exact hax
    · rw [NDArray.getD_upd2_ne _ _ _ _ _ hd, hrly]; exact hax
  have h2 := NDArray.add2_eq_ok
    (NDArray.upd2 m.matrix (x / m.bin_size + sx.1) (y / m.bin_size + sy.1) v)
    (y / m.bin_size + sy.1) (x / m.bin_size + sx.1) v
    (by rw [hlen1]; exact hay) hb3
  simp only [locate, hx, hy, if_neg hb, h1, h2]

/-- On equal shapes the decorator takes the success branch. -/
theorem mat_operation_ok (f : ℚ → ℚ → ℚ) (a b : HicChrMatrix)
    (hs : a.matrix.shape = b.matrix.shape) :
    mat_operation f a b =
      .ok { a with matrix := NDArray.elementwise f a.matrix b.matrix } := by
  unfold mat_operation
  rw [if_neg (not_not_intro hs)]

/-- The success branch of the decorator satisfies the element-wise result
contract. -/
theorem mat_operation_elemwise (f : ℚ → ℚ → ℚ) (a b : HicChrMatrix)
    (ha : a.matrix.IsRect) (hb : b.matrix.IsRect)
    (hs : a.matrix.shape = b.matrix.shape) :
    ElemwiseResult f a b (mat_operation f a b) := by
  refine ⟨_, mat_operation_ok f a b hs, rfl, rfl, rfl, rfl, rfl, rfl, rfl,
    ?_, ?_⟩
  · exact NDArray.shape_elementwise f _ _ hs
  · intro i j hi hj
    exact NDArray.get2_elementwise f _ _ ha hb hs i j hi hj

end HicChrMatrix

/-!
## The claims

Each claim of the frozen list gets one theorem named after it; corrected
claims additionally get a closed counterexample refuting the claim as
stated, and theorems with hypotheses get a closed witness instantiating
them.
-/

/-- C1: the spec claims the freshly allocated square zero matrix has
dimension equal to the total bin count (5 for the example table), but the
source allocates `np.zeros([num_bins, num_bins])` from the loop variable
`num_bins` — the bin count of the LAST chromosome — so on the example table
`self.num_bins` is 5 while the matrix is 2 by 2, not 5 by 5.  This theorem
evaluates the code at the failing input. -/
theorem claim_C1 :
    Except.map (fun m => (m.num_bins, m.matrix.shape))
        (HicChrMatrix.init [("chr1", 25), ("chr2", 15)] 10) =
      .ok (5, (2, 2)) ∧
    ((2 : Nat), (2 : Nat)) ≠ ((5 : Nat), (5 : Nat)) := by
  decide

/-- C6: on the table `[("chr1", 25), ("chr2", 15)]` with bin size 10, chr1
gets 3 bins (25/10 rounds up) and chr2 gets 2, the axis is exactly
chr1 to (0, 2) and chr2 to (3, 4), and the total bin count is 5. -/
theorem claim_C6 :
    Except.map (fun m => (m.axis, m.lengths, m.num_bins))
        (HicChrMatrix.init [("chr1", 25), ("chr2", 15)] 10) =
      .ok ([("chr1", (0, 2)), ("chr2", (3, 4))], [3, 2], 5) := by
  decide

/-- C2 counterexample: the table `[("chr1", 25), ("chrM", 5)]` with bin size
10 contains a chromosome (chrM, length 5) shorter than one bin, yet
construction succeeds with no warning and chrM is NOT skipped: it appears in
the chromosome list and in the axis with one bin — refuting the claim that
such a chromosome is excluded. -/
theorem claim_C2_counterexample :
    Except.map (fun m => (m.chromosomes, m.axis.lookup "chrM"))
        (HicChrMatrix.init [("chr1", 25), ("chrM", 5)] 10) =
      .ok (["chr1", "chrM"], some (3, 3)) := by
  decide

/-- C2 (amended): the bin-count computation rounds UP, so a chromosome of
nonzero length shorter than one bin receives one bin and is kept — a table
of positive-length chromosomes is constructed with every chromosome in the
chromosome list.  The skip branch fires only for a chromosome whose computed
bin count is zero (length exactly 0 for a positive bin size), and then it
raises a NameError on the unbound name `sys` (hicmatrix.py never imports
`sys`) instead of logging the intended warning. -/
theorem claim_C2 (chr_len : List (String × Nat)) (bin_size : Nat)
    (hb : 0 < bin_size) :
    ((∀ p ∈ chr_len, 0 < p.2) → chr_len ≠ [] →
      ∃ m, HicChrMatrix.init chr_len bin_size = .ok m ∧
        m.chromosomes = chr_len.map Prod.fst) ∧
    (∀ p ∈ chr_len, 0 < p.2 → p.2 < bin_size →
      HicChrMatrix.numBinsOf p.2 bin_size = 1) ∧
    (∀ pre c post, chr_len = pre ++ (c, 0) :: post →
      (∀ p ∈ pre, 0 < p.2) →
      HicChrMatrix.init chr_len bin_size = .error (.nameError "sys")) := by
  refine ⟨fun hl hne => HicChrMatrix.init_ok_of_pos chr_len bin_size hb hl hne,
    fun p _ h0 hlt => HicChrMatrix.numBinsOf_short p.2 bin_size h0 hlt,
    ?_⟩
  intro pre c post hdc hpre
  subst hdc
  unfold HicChrMatrix.init
  rw [HicChrMatrix.initLoop_err_of_zero bin_size hb pre c post hpre]

/-- C2 witness: the amended claim at the concrete tables — chrM of length 5
is kept (one bin), and a zero-length chromosome aborts construction with
the NameError on `sys`. -/
theorem claim_C2_witness :
    (∃ m, HicChrMatrix.init [("chr1", 25), ("chrM", 5)] 10 = .ok m ∧
      m.chromosomes =
        List.map Prod.fst [("chr1", (25 : Nat)), ("chrM", 5)]) ∧
    HicChrMatrix.init [("chr1", 25), ("chrM", 0)] 10 =
      .error (.nameError "sys") := by
  constructor
  · exact (claim_C2 [("chr1", 25), ("chrM", 5)] 10 (by decide)).1
      (by decide) (by decide)
  · exact (claim_C2 [("chr1", 25), ("chrM", 0)] 10 (by decide)).2.2
      [("chr1", 25)] "chrM" [] rfl (by decide)

/-- C10 counterexample: a table whose every chromosome would be skipped
(one zero-length chromosome) does fail, but with the NameError on `sys`
raised at the skip-warning print inside the loop — not with the
unbound-`num_bins` error at matrix allocation that the claim describes. -/
theorem claim_C10_counterexample :
    HicChrMatrix.init [("chrM", 0)] 10 = .error (.nameError "sys") ∧
    PyError.nameError "sys" ≠ PyError.nameError "num_bins" := by
  decide

/-- C10 (amended): an empty chromosome length table fails with the
unbound-variable error on `num_bins` at matrix allocation (never a 0 by 0
wrapper); a nonempty table whose every chromosome computes zero bins fails
earlier, with the unbound-variable error on `sys` at the skip-warning
print. -/
theorem claim_C10 (b : Nat) (chr_len : List (String × Nat)) (hb : 0 < b) :
    HicChrMatrix.init [] b = .error (.nameError "num_bins") ∧
    (chr_len ≠ [] → (∀ p ∈ chr_len, p.2 = 0) →
      HicChrMatrix.init chr_len b = .error (.nameError "sys")) := by
  refine ⟨rfl, ?_⟩
  intro hne hz
  cases chr_len with
  | nil => exact absurd rfl hne
  | cons p rest =>
    obtain ⟨c, len⟩ := p
    have h0 : len = 0 := hz (c, len) (List.mem_cons_self _ _)
    subst h0
    have h := HicChrMatrix.initLoop_err_of_zero b hb [] c rest
      (by simp) [] 0 [] [] none
    rw [List.nil_append] at h
    unfold HicChrMatrix.init
    rw [h]

/-- C10 witness: the amended claim at concrete inputs. -/
theorem claim_C10_witness :
    HicChrMatrix.init [] 7 = .error (.nameError "num_bins") ∧
    HicChrMatrix.init [("a", 0), ("b", 0)] 7 =
      .error (.nameError "sys") := by
  refine ⟨(claim_C10 7 [("a", 0), ("b", 0)] (by decide)).1, ?_⟩
  exact (claim_C10 7 [("a", 0), ("b", 0)] (by decide)).2
    (by decide) (by decide)

/-- C3 counterexample: a locate call with a known chromosome name whose
position lies far beyond the chromosome raises IndexError instead of
incrementing the two symmetric cells — position 1000 on chr1 gives bin
offset 100 and absolute index 100, outside the allocated matrix — refuting
the claim for EVERY locate call with known chromosome names. -/
theorem claim_C3_counterexample :
    Except.bind (HicChrMatrix.init [("chr1", 25), ("chr2", 15)] 10)
      (fun m => m.locate "chr1" 1000 "chr1" 1000 1) =
    .error .indexError := by
  decide

/-- C3 (amended): for a locate call with known chromosome names whose two
absolute bin indices — floor(position / bin size) plus the chromosome axis
start — fall inside the allocated square matrix and differ, both cells
[x, y] and [y, x] are incremented by the given increment and every other
cell is unchanged; out-of-range indices instead raise IndexError (positions
are not validated against chromosome length). -/
theorem claim_C3 (m : HicChrMatrix) (chr_x chr_y : String) (x y : Nat)
    (v : ℚ) (sx sy : Nat × Nat)
    (hx : m.axis.lookup chr_x = some sx)
    (hy : m.axis.lookup chr_y = some sy)
    (hb : ¬ m.bin_size = 0)
    (hrect : m.matrix.IsRect)
    (hsq : (m.matrix.headD []).length = m.matrix.length)
    (hax : x / m.bin_size + sx.1 < m.matrix.length)
    (hay : y / m.bin_size + sy.1 < m.matrix.length)
    (hne : x / m.bin_size + sx.1 ≠ y / m.bin_size + sy.1) :
    ∃ m2, m.locate chr_x x chr_y y v = .ok m2 ∧
      m2.matrix.get2 (x / m.bin_size + sx.1) (y / m.bin_size + sy.1) =
        m.matrix.get2 (x / m.bin_size + sx.1) (y / m.bin_size + sy.1) + v ∧
      m2.matrix.get2 (y / m.bin_size + sy.1) (x / m.bin_size + sx.1) =
        m.matrix.get2 (y / m.bin_size + sy.1) (x / m.bin_size + sx.1) + v ∧
      ∀ i j, ¬ (i = x / m.bin_size + sx.1 ∧ j = y / m.bin_size + sy.1) →
             ¬ (i = y / m.bin_size + sy.1 ∧ j = x / m.bin_size + sx.1) →
             m2.matrix.get2 i j = m.matrix.get2 i j := by
  have hrlx : (m.matrix.getD (x / m.bin_size + sx.1) []).length =
      m.matrix.length :=
    NDArray.row_length_of_square _ hrect hsq _ hax
  refine ⟨_, HicChrMatrix.locate_eq m chr_x chr_y x y v sx sy hx hy hb
    hrect hsq hax hay, ?_, ?_, ?_⟩
  · rw [NDArray.get2_upd2_other _ _ _ _ _ _
      (by rw [NDArray.length_upd2]; exact hay) (Or.inl hne)]
    exact NDArray.get2_upd2_self _ _ _ _ hax (by rw [hrlx]; exact hay)
  · rw [NDArray.get2_upd2_self _ _ _ _
      (by rw [NDArray.length_upd2]; exact hay)
      (by rw [NDArray.getD_upd2_ne _ _ _ _ _ hne,
        NDArray.row_length_of_square _ hrect hsq _ hay]; exact hax)]
    rw [NDArray.get2_upd2_other _ _ _ _ _ _ hax
      (Or.inl (fun hh => hne hh.symm))]
  · intro i j h1 h2
    rw [NDArray.get2_upd2_other _ _ _ _ _ _
      (by rw [NDArray.length_upd2]; exact hay) (not_and_or.mp h2)]
    exact NDArray.get2_upd2_other _ _ _ _ _ _ hax (not_and_or.mp h1)

/-- C3 witness: the spec example call locate("chr1", 5, "chr1", 17) on the
matrix the constructor actually builds for the example table — bin size 10
gives offsets 0 and 1, both inside chr1, and cells [0, 1] and [1, 0] are
each incremented by 1. -/
theorem claim_C3_witness :
    ∃ m2, exampleMat.locate "chr1" 5 "chr1" 17 1 = .ok m2 ∧
      m2.matrix.get2 0 1 = exampleMat.matrix.get2 0 1 + 1 ∧
      m2.matrix.get2 1 0 = exampleMat.matrix.get2 1 0 + 1 ∧
      ∀ i j, ¬ (i = 0 ∧ j = 1) → ¬ (i = 1 ∧ j = 0) →
             m2.matrix.get2 i j = exampleMat.matrix.get2 i j :=
  claim_C3 exampleMat "chr1" "chr1" 5 17 1 (0, 2) (0, 2)
    (by decide) (by decide) (by decide) (by decide) (by decide)
    (by decide) (by decide) (by decide)

/-- C9: a locate call whose two loci fall into the same absolute bin (same
chromosome, equal bin offsets) adds the increment to the single diagonal
cell TWICE — the cell grows by two times the increment, and every other cell
is unchanged. -/
theorem claim_C9 (m : HicChrMatrix) (chr_ : String) (x y : Nat) (v : ℚ)
    (s : Nat × Nat)
    (hx : m.axis.lookup chr_ = some s)
    (hb : ¬ m.bin_size = 0)
    (hrect : m.matrix.IsRect)
    (hsq : (m.matrix.headD []).length = m.matrix.length)
    (heq : x / m.bin_size = y / m.bin_size)
    (ha : x / m.bin_size + s.1 < m.matrix.length) :
    ∃ m2, m.locate chr_ x chr_ y v = .ok m2 ∧
      m2.matrix.get2 (x / m.bin_size + s.1) (x / m.bin_size + s.1) =
        m.matrix.get2 (x / m.bin_size + s.1) (x / m.bin_size + s.1) +
          2 * v ∧
      ∀ i j, ¬ (i = x / m.bin_size + s.1 ∧ j = x / m.bin_size + s.1) →
             m2.matrix.get2 i j = m.matrix.get2 i j := by
  have hloc := HicChrMatrix.locate_eq m chr_ chr_ x y v s s hx hx hb
    hrect hsq ha (by rw [← heq]; exact ha)
  rw [← heq] at hloc
  have hrl : (m.matrix.getD (x / m.bin_size + s.1) []).length =
      m.matrix.length :=
    NDArray.row_length_of_square _ hrect hsq _ ha
  refine ⟨_, hloc, ?_, ?_⟩
  · rw [NDArray.get2_upd2_self _ _ _ _
      (by rw [NDArray.length_upd2]; exact ha)
      (by rw [NDArray.rowlen_upd2_self _ _ _ _ ha, hrl]; exact ha),
      NDArray.get2_upd2_self _ _ _ _ ha (by rw [hrl]; exact ha)]
    ring
  · intro i j hij
    rw [NDArray.get2_upd2_other _ _ _ _ _ _
      (by rw [NDArray.length_upd2]; exact ha) (not_and_or.mp hij)]
    exact NDArray.get2_upd2_other _ _ _ _ _ _ ha (not_and_or.mp hij)

/-- C9 witness: locate("chr1", 5, "chr1", 7) on the example matrix — both
positions fall into bin 0 of chr1, and the diagonal cell [0, 0] grows by
2, twice the default increment 1. -/
theorem claim_C9_witness :
    ∃ m2, exampleMat.locate "chr1" 5 "chr1" 7 1 = .ok m2 ∧
      m2.matrix.get2 0 0 = exampleMat.matrix.get2 0 0 + 2 * 1 ∧
      ∀ i j, ¬ (i = 0 ∧ j = 0) →
             m2.matrix.get2 i j = exampleMat.matrix.get2 i j :=
  claim_C9 exampleMat "chr1" 5 7 1 (0, 2)
    (by decide) (by decide) (by decide) (by decide) (by decide) (by decide)

/-- C4: on two wrappers of identical matrix shape, each of add, sub, mul and
div succeeds with a fresh wrapper that carries every metadata attribute of
the left operand (the shallow copy) and whose matrix is the element-wise
combination of the two operand matrices; the embedding passes the operands
by value, so neither is mutated. -/
theorem claim_C4 (a b : HicChrMatrix)
    (ha : a.matrix.IsRect) (hb : b.matrix.IsRect)
    (hs : a.matrix.shape = b.matrix.shape) :
    ElemwiseResult (fun p q => p + q) a b (a.add b) ∧
    ElemwiseResult (fun p q => p - q) a b (a.sub b) ∧
    ElemwiseResult (fun p q => p * q) a b (a.mul b) ∧
    ElemwiseResult (fun p q => p / q) a b (a.div b) :=
  ⟨HicChrMatrix.mat_operation_elemwise _ a b ha hb hs,
   HicChrMatrix.mat_operation_elemwise _ a b ha hb hs,
   HicChrMatrix.mat_operation_elemwise _ a b ha hb hs,
   HicChrMatrix.mat_operation_elemwise _ a b ha hb hs⟩

/-- C4 witness: the four operators on two concrete same-shape wrappers. -/
theorem claim_C4_witness :
    ElemwiseResult (fun p q => p + q) exampleMat exampleMatB
      (exampleMat.add exampleMatB) ∧
    ElemwiseResult (fun p q => p - q) exampleMat exampleMatB
      (exampleMat.sub exampleMatB) ∧
    ElemwiseResult (fun p q => p * q) exampleMat exampleMatB
      (exampleMat.mul exampleMatB) ∧
    ElemwiseResult (fun p q => p / q) exampleMat exampleMatB
      (exampleMat.div exampleMatB) :=
  claim_C4 exampleMat exampleMatB (by decide) (by decide) (by decide)

/-- C5: on two wrappers whose matrix shapes differ, every one of the four
operators raises the ValueError with the source message and produces no
partial result; the operands, passed by value, are untouched. -/
theorem claim_C5 (a b : HicChrMatrix)
    (hs : a.matrix.shape ≠ b.matrix.shape) :
    a.add b = .error (.valueError "Two matrix must in same shape.") ∧
    a.sub b = .error (.valueError "Two matrix must in same shape.") ∧
    a.mul b = .error (.valueError "Two matrix must in same shape.") ∧
    a.div b = .error (.valueError "Two matrix must in same shape.") := by
  refine ⟨?_, ?_, ?_, ?_⟩ <;>
    simp only [HicChrMatrix.add, HicChrMatrix.sub, HicChrMatrix.mul,
      HicChrMatrix.div, HicChrMatrix.mat_operation, if_pos hs]

/-- C5 witness: a 2 by 2 wrapper against a 1 by 1 wrapper. -/
theorem claim_C5_witness :
    exampleMat.add exampleMatSmall =
      .error (.valueError "Two matrix must in same shape.") ∧
    exampleMat.sub exampleMatSmall =
      .error (.valueError "Two matrix must in same shape.") ∧
    exampleMat.mul exampleMatSmall =
      .error (.valueError "Two matrix must in same shape.") ∧
    exampleMat.div exampleMatSmall =
      .error (.valueError "Two matrix must in same shape.") :=
  claim_C5 exampleMat exampleMatSmall (by decide)

/-- C7: per chromosome, the worker emits exactly one BED6 record with name
".", score "0" and strand "+" per case-insensitive match of the motif (in
match order), emits strand "-" records exactly when the reverse complement
differs from the motif (then one per reverse-complement match), and for a
palindromic motif (equal to its own reverse complement) no position is ever
emitted under both strands. -/
theorem claim_C7 (rest chr_ seq : String) :
    ((worker_records rest chr_ seq).filter (fun r => r.strand == "+") =
      (finditer rest.data seq.data).map
        (fun p => ⟨chr_, p.1, p.2, ".", "0", "+"⟩)) ∧
    ((worker_records rest chr_ seq).filter (fun r => r.strand == "-") =
      if reverse_complement rest ≠ rest then
        (finditer (reverse_complement rest).data seq.data).map
          (fun p => ⟨chr_, p.1, p.2, ".", "0", "-"⟩)
      else []) ∧
    (reverse_complement rest = rest →
      ∀ s e, ¬ (Bed6.mk chr_ s e "." "0" "+" ∈ worker_records rest chr_ seq ∧
                Bed6.mk chr_ s e "." "0" "-" ∈
                  worker_records rest chr_ seq)) := by
  by_cases hrc : reverse_complement rest = rest
  · refine ⟨?_, ?_, ?_⟩
    · simp [worker_records, hrc, List.filter_map, Function.comp_def]
    · simp [worker_records, hrc, List.filter_map, Function.comp_def]
    · intro _ s e h
      have h2 := h.2
      simp [worker_records, hrc, List.mem_map] at h2
  · refine ⟨?_, ?_, ?_⟩
    · simp [worker_records, hrc, List.filter_append, List.filter_map,
        Function.comp_def]
    · simp [worker_records, hrc, List.filter_append, List.filter_map,
        Function.comp_def]
    · intro h
      exact absurd h hrc

/-- C8: the assembled pairs file begins with exactly the two header lines
"## pairs format v1.0" and "#columns: readID chr1 position1 chr2 position2
strand1 strand2", followed by one tab-joined line per converted record,
the records being a permutation of the input sorted by the key order
chromosome1, chromosome2, position1 (numeric), position2 (numeric). -/
theorem claim_C8 (records : List PairsRecord) :
    (bedpe2pairsOutput records).take 2 =
      ["## pairs format v1.0",
       "#columns: readID chr1 position1 chr2 position2 strand1 strand2"] ∧
    (bedpe2pairsOutput records).drop 2 =
      (sortPairsRecords records).map pairsLine ∧
    List.Sorted PairsLE (sortPairsRecords records) ∧
    (sortPairsRecords records).Perm records := by
  refine ⟨rfl, rfl, ?_, ?_⟩
  · exact List.sorted_insertionSort PairsLE records
  · exact List.perm_insertionSort PairsLE records
